import Mathlib

/-!
Shallow embedding of `src/main.py` of the smart-recipe-generator repository:
the ingredient catalog, dietary-tag resolution, cooking-method suggestion,
nutrition estimation, the recipe-history store (load / save / append / like)
and the pair-frequency analysis, together with theorems settling the
specification claims about them.

Python strings are modelled as `String`, Python lists as `List`, Python sets
as duplicate-free `List`s built by insertion (`setAdd`/`setUpdate`; the
source only ever compares these as sets), Python `int` counters as `Nat`
(every integer in the program is a length, count or like counter, all
non-negative), and the JSON history file as an optional parsed-or-malformed
JSON value.
-/

/-- Embedding of one entry of the `INGREDIENT_CATEGORIES` dict of
`src/main.py` (lines 13-34): the category name (the dict key), its
`items` list and its `tags` list. -/
structure Category where
  name : String
  items : List String
  tags : List String
deriving DecidableEq

/-- Embedding of one entry of the `INGREDIENT_PROFILES` dict of
`src/main.py` (lines 37-49): the ingredient name (the dict key), its
`pairs_with`, `flavor_profile` and `cooking_methods` lists. -/
structure IngredientProfile where
  name : String
  pairs_with : List String
  flavor_profile : List String
  cooking_methods : List String
deriving DecidableEq

/-- The `INGREDIENT_CATEGORIES` table of `src/main.py` lines 13-34,
verbatim, in dict insertion order. -/
def INGREDIENT_CATEGORIES : List Category :=
  [ { name := "Vegetables"
    , items := ["Tomato", "Onion", "Garlic", "Spinach", "Potato", "Carrot",
                "Bell Pepper", "Mushroom"]
    , tags := ["vegan", "vegetarian", "healthy"] }
  , { name := "Proteins"
    , items := ["Eggs", "Chicken", "Tofu", "Beef", "Fish", "Lentils"]
    , tags := ["high-protein"] }
  , { name := "Dairy"
    , items := ["Milk", "Cheese", "Yogurt", "Butter"]
    , tags := ["vegetarian"] }
  , { name := "Pantry"
    , items := ["Rice", "Pasta", "Flour", "Oil", "Salt", "Pepper"]
    , tags := ["staples"] }
  , { name := "Herbs"
    , items := ["Basil", "Oregano", "Thyme", "Cilantro", "Parsley"]
    , tags := ["flavor-enhancer"] } ]

/-- The `INGREDIENT_PROFILES` table of `src/main.py` lines 37-49, verbatim. -/
def INGREDIENT_PROFILES : List IngredientProfile :=
  [ { name := "Tomato"
    , pairs_with := ["Basil", "Garlic", "Onion", "Cheese"]
    , flavor_profile := ["acidic", "sweet"]
    , cooking_methods := ["raw", "roasted", "sautéed"] }
  , { name := "Chicken"
    , pairs_with := ["Garlic", "Onion", "Bell Pepper", "Thyme"]
    , flavor_profile := ["savory"]
    , cooking_methods := ["grilled", "baked", "pan-fried"] } ]

/-- Dict subscript `INGREDIENT_CATEGORIES[name]['items']` as used at
`src/main.py` lines 131-132 (the key is always present there; a missing key
is mapped to `[]`). -/
def categoryItems (name : String) : List String :=
  match INGREDIENT_CATEGORIES.find? (fun c => c.name = name) with
  | some c => c.items
  | none => []

/-- Python `set.add`-style insertion for the duplicate-free-list model of a
set: append the element unless already present. -/
def setAdd (s : List String) (x : String) : List String :=
  if x ∈ s then s else s ++ [x]

/-- Python `set.update(iterable)`: insert every element of the iterable. -/
def setUpdate (s : List String) (l : List String) : List String :=
  l.foldl setAdd s

/-- Body of `RecipeManager.get_dietary_tags` (`src/main.py` lines 80-87),
parameterized by the catalog it iterates over (the source iterates over the
global `INGREDIENT_CATEGORIES.values()`): for each selected ingredient, for
each category, if the ingredient is in the category's `items`, union the
category's `tags` into the accumulated set. -/
def get_dietary_tagsWith (cats : List Category) (selection : List String) :
    List String :=
  selection.foldl
    (fun acc ingredient =>
      cats.foldl
        (fun acc c => if ingredient ∈ c.items then setUpdate acc c.tags else acc)
        acc)
    []

/-- `RecipeManager.get_dietary_tags` (`src/main.py` lines 80-87) applied to
the selected-ingredients list it reads from session state. The Python
function returns `list(all_tags)` whose element order (set iteration order)
is unspecified; the model fixes first-insertion order, and every claim about
the result treats it as a set. -/
def get_dietary_tags (selection : List String) : List String :=
  get_dietary_tagsWith INGREDIENT_CATEGORIES selection

/-- `RecipeManager.get_cooking_methods` (`src/main.py` lines 89-95): for
each selected ingredient present in `INGREDIENT_PROFILES`, union its
`cooking_methods` into the accumulated set; same list-as-set model as
`get_dietary_tags`. -/
def get_cooking_methods (selection : List String) : List String :=
  selection.foldl
    (fun acc ingredient =>
      match INGREDIENT_PROFILES.find? (fun p => p.name = ingredient) with
      | some p => setUpdate acc p.cooking_methods
      | none => acc)
    []

/-- Result record of `analyze_nutrition` (`src/main.py` lines 126-134). -/
structure Nutrition where
  calories : Nat
  protein : Nat
  carbs : Nat
deriving DecidableEq

/-- `analyze_nutrition` (`src/main.py` lines 126-134):
`calories = sum(len(i) * 10 for i in ingredients)`,
`protein = len([i for i in ingredients if i in Proteins items]) * 15`,
`carbs = len([i for i in ingredients if i in Pantry items]) * 20`.
Python `len` on a string counts characters, as `String.length` does. -/
def analyze_nutrition (ingredients : List String) : Nutrition :=
  { calories := (ingredients.map (fun i => i.length * 10)).sum
  , protein :=
      (ingredients.filter (fun i => decide (i ∈ categoryItems "Proteins"))).length * 15
  , carbs :=
      (ingredients.filter (fun i => decide (i ∈ categoryItems "Pantry"))).length * 20 }

/-- One persisted record of `recipe_history.json`, as built by
`RecipeManager.add_recipe` (`src/main.py` lines 68-78): the generated recipe
text, the ISO timestamp string, the selected-ingredients snapshot, the like
counter and the dietary tags computed at creation time. -/
structure RecipeEntry where
  recipe : String
  timestamp : String
  ingredients : List String
  likes : Nat
  dietary_tags : List String
deriving DecidableEq

/-- JSON values, as produced by Python's `json.dump` / consumed by
`json.load` for the history file (only strings, non-negative integers,
arrays and objects occur in this program's data). -/
inductive Json where
  | str : String → Json
  | num : Nat → Json
  | arr : List Json → Json
  | obj : List (String × Json) → Json

/-- Serialization of one history entry: the dict literal of
`RecipeManager.add_recipe` (`src/main.py` lines 70-76), fields in insertion
order, as `json.dump` writes it. -/
def entryToJson (e : RecipeEntry) : Json :=
  .obj [ ("recipe", .str e.recipe)
       , ("timestamp", .str e.timestamp)
       , ("ingredients", .arr (e.ingredients.map .str))
       , ("likes", .num e.likes)
       , ("dietary_tags", .arr (e.dietary_tags.map .str)) ]

/-- Serialization of the whole history list, as `json.dump(self.history, f)`
writes it (`src/main.py` line 66). -/
def historyToJson (h : List RecipeEntry) : Json :=
  .arr (h.map entryToJson)

/-- Expect a JSON string. -/
def jsonStr? : Json → Option String
  | .str s => some s
  | _ => none

/-- Expect a JSON non-negative integer. -/
def jsonNum? : Json → Option Nat
  | .num n => some n
  | _ => none

/-- Expect a JSON array of strings. -/
def jsonStrItems? : List Json → Option (List String)
  | [] => some []
  | j :: rest => do
      let s ← jsonStr? j
      let r ← jsonStrItems? rest
      pure (s :: r)

/-- Expect a JSON array of strings (outer shape). -/
def jsonStrList? : Json → Option (List String)
  | .arr l => jsonStrItems? l
  | _ => none

/-- Python dict subscript on a parsed JSON object. -/
def jsonField (fields : List (String × Json)) (key : String) : Option Json :=
  (fields.find? (fun p => p.1 = key)).map (fun p => p.2)

/-- Deserialization of one history entry: reading back the dict written by
`entryToJson` (Python code accesses the same five keys, e.g.
`entry['ingredients']` at line 249 and `['likes']` at line 228). -/
def jsonToEntry : Json → Option RecipeEntry
  | .obj fields => do
      let r ← jsonField fields "recipe" >>= jsonStr?
      let ts ← jsonField fields "timestamp" >>= jsonStr?
      let ings ← jsonField fields "ingredients" >>= jsonStrList?
      let lk ← jsonField fields "likes" >>= jsonNum?
      let tags ← jsonField fields "dietary_tags" >>= jsonStrList?
      pure { recipe := r, timestamp := ts, ingredients := ings,
             likes := lk, dietary_tags := tags }
  | _ => none

/-- Deserialization of a list of history entries. -/
def jsonToEntries : List Json → Option (List RecipeEntry)
  | [] => some []
  | j :: rest => do
      let e ← jsonToEntry j
      let r ← jsonToEntries rest
      pure (e :: r)

/-- Deserialization of the whole history. -/
def jsonToHistory : Json → Option (List RecipeEntry)
  | .arr l => jsonToEntries l
  | _ => none

/-- Content of the `recipe_history.json` slot on disk: `none` when the file
does not exist (`'recipe_history.json' in os.listdir('.')` is false);
`some (.error ())` when the file exists but `json.load` raises on it
(malformed text); `some (.ok j)` when the file holds the JSON document `j`. -/
def FileContent : Type := Option (Except Unit Json)

/-- State of a `RecipeManager` together with the history file it reads and
writes: the in-memory `self.history` list and the file. -/
structure Sys where
  file : FileContent
  history : List RecipeEntry

/-- `RecipeManager.load_history` (`src/main.py` lines 55-61): a missing file
yields the empty history (not an error); a file `json.load` cannot parse
raises, surfaced to the caller as `.error`. The source assigns `json.load`'s
result to `self.history` with no schema validation; the model types history
as `List RecipeEntry`, so a parseable JSON document that is not a serialized
history (which this program never writes, since every write goes through
`save_history`) has no model counterpart and is mapped to the error branch. -/
def load_history (fc : FileContent) : Except Unit (List RecipeEntry) :=
  match fc with
  | none => .ok []
  | some (.error _) => .error ()
  | some (.ok j) =>
      match jsonToHistory j with
      | some h => .ok h
      | none => .error ()

/-- `RecipeManager.__init__`/`load_history` as a state builder: on success
the manager holds the loaded history and the file is untouched (the
constructor only reads). -/
def initManager (fc : FileContent) : Except Unit Sys :=
  (load_history fc).map (fun h => { file := fc, history := h })

/-- `RecipeManager.save_history` (`src/main.py` lines 63-66): overwrite the
file with the serialization of the entire in-memory history. -/
def save_history (s : Sys) : Sys :=
  { s with file := some (.ok (historyToJson s.history)) }

/-- The dict literal built by `RecipeManager.add_recipe` (`src/main.py`
lines 70-76): fresh entry with `likes = 0` and dietary tags computed from
the current selection. -/
def newEntry (recipeData timestamp : String) (selection : List String) :
    RecipeEntry :=
  { recipe := recipeData
  , timestamp := timestamp
  , ingredients := selection
  , likes := 0
  , dietary_tags := get_dietary_tags selection }

/-- `RecipeManager.add_recipe` (`src/main.py` lines 68-78): append the new
entry to `self.history`, then `save_history` (full-file rewrite). The
`selection` argument is `st.session_state.selected_ingredients`, read both
for the `ingredients` field and by `get_dietary_tags`. -/
def add_recipe (recipeData timestamp : String) (selection : List String)
    (s : Sys) : Sys :=
  save_history { s with history := s.history ++ [newEntry recipeData timestamp selection] }

/-- The Like-button handler (`src/main.py` lines 227-229):
`recipe_manager.history[-1]['likes'] += 1; recipe_manager.save_history()`.
On an empty history, `history[-1]` raises `IndexError` before anything is
written, so the error branch is reached with no file mutation; otherwise the
last entry's counter is incremented in place and the whole history is
persisted. -/
def incrementLastLike (s : Sys) : Except Unit Sys :=
  match s.history.getLast? with
  | none => .error ()
  | some e =>
      .ok (save_history
        { s with history := s.history.dropLast ++ [{ e with likes := e.likes + 1 }] })

/-- Python's `<` on strings, character-list view: lexicographic by code
point, a proper prefix is smaller. -/
def pyCharsLt : List Char → List Char → Bool
  | [], [] => false
  | [], _ :: _ => true
  | _ :: _, [] => false
  | a :: as, b :: bs =>
      if a.toNat < b.toNat then true
      else if b.toNat < a.toNat then false
      else pyCharsLt as bs

/-- Python's `i1 < i2` string comparison at `src/main.py` line 251:
lexicographic by code point. -/
def pyStrLt (a b : String) : Bool :=
  pyCharsLt a.data b.data

/-- The nested pair loop of the analytics block (`src/main.py` lines
249-252): for `i1` over the entry's ingredient list in order, for `i2` over
the same list in order, keep `(i1, i2)` when `i1 < i2`. The resulting
list, in loop order, is the sequence of keys the `combinations` counter is
bumped with for this entry. -/
def entryPairs (ings : List String) : List (String × String) :=
  ings.flatMap (fun i1 =>
    ings.filterMap (fun i2 => if pyStrLt i1 i2 then some (i1, i2) else none))

/-- One `combinations[(i1, i2)] += 1` on a `defaultdict(int)` modelled as an
association list in key-insertion order: increment the existing binding, or
append a new binding with count 1 at the end (dict iteration order is
insertion order, which the tie-break behavior of the sort depends on). -/
def bump (l : List ((String × String) × Nat)) (k : String × String) :
    List ((String × String) × Nat) :=
  match l with
  | [] => [(k, 1)]
  | (k', c) :: rest => if k' = k then (k', c + 1) :: rest else (k', c) :: bump rest k

/-- The `combinations` counter after the double loop of `src/main.py` lines
247-252: every entry of the history contributes its `entryPairs`, in history
order. -/
def pairCombos (history : List RecipeEntry) : List ((String × String) × Nat) :=
  history.foldl (fun acc e => (entryPairs e.ingredients).foldl bump acc) []

/-- Count stored for a pair key, with the `defaultdict` default of 0. -/
def comboCount : List ((String × String) × Nat) → (String × String) → Nat
  | [], _ => 0
  | (k0, c) :: rest, k => if k0 = k then c else comboCount rest k

/-- Number of occurrences of a pair key in a key sequence (how many bumps a
fold over that sequence performs on the key). -/
def keyOcc (ks : List (String × String)) (k : String × String) : Nat :=
  ks.countP (fun x => decide (x = k))

/-- Stable insertion of one counted pair into a descending-by-count list: the
element goes before the first strictly smaller count but after earlier
elements of equal count. -/
def insertDesc (x : (String × String) × Nat) :
    List ((String × String) × Nat) → List ((String × String) × Nat)
  | [] => [x]
  | y :: ys => if y.2 ≤ x.2 then x :: y :: ys else y :: insertDesc x ys

/-- Stable sort by count descending, the embedding of
`sorted(combinations.items(), key=lambda x: x[1], reverse=True)` at
`src/main.py` line 254 (Python's `sorted` is stable, and `reverse=True`
keeps equal elements in original order). -/
def sortByCountDesc :
    List ((String × String) × Nat) → List ((String × String) × Nat)
  | [] => []
  | x :: xs => insertDesc x (sortByCountDesc xs)

/-- `top_combos` of `src/main.py` lines 254-256 with the slice bound `[:3]`
exposed as the parameter `k` (the source hardcodes `k = 3`; the spec's
`topPairs(history, k)` interface names the bound): the counted pairs sorted
by count descending, first `k`, flattened to `(i1, i2, count)` triples. -/
def topPairs (history : List RecipeEntry) (k : Nat) :
    List (String × String × Nat) :=
  ((sortByCountDesc (pairCombos history)).take k).map (fun p => (p.1.1, p.1.2, p.2))

/-- History entry with only the `ingredients` field populated, for concrete
pair-analysis computations (the analytics loop reads nothing else). -/
def entryOf (ings : List String) : RecipeEntry :=
  { recipe := "", timestamp := "", ingredients := ings, likes := 0, dietary_tags := [] }

/-- The mutable state the analysis and derivation functions can see:
`st.session_state.selected_ingredients`, the manager's in-memory history and
the history file. The ingredient catalog and profile tables are global
constants, immutable by construction (`src/main.py` never assigns to them). -/
structure AppState where
  selected_ingredients : List String
  history : List RecipeEntry
  file : FileContent

/-- State-threaded run of `RecipeManager.get_dietary_tags`: the method body
(`src/main.py` lines 80-87) reads `st.session_state.selected_ingredients`
and the global catalog and performs no assignment to any of them, so its
state-monad embedding returns the state unchanged alongside the result. -/
def get_dietary_tagsRun (st : AppState) : List String × AppState :=
  (get_dietary_tags st.selected_ingredients, st)

/-- State-threaded run of `RecipeManager.get_cooking_methods` (`src/main.py`
lines 89-95): reads only, mutates nothing. -/
def get_cooking_methodsRun (st : AppState) : List String × AppState :=
  (get_cooking_methods st.selected_ingredients, st)

/-- State-threaded run of `analyze_nutrition` on the current selection, as
called at `src/main.py` line 204: reads only, mutates nothing. -/
def analyze_nutritionRun (st : AppState) : Nutrition × AppState :=
  (analyze_nutrition st.selected_ingredients, st)

/-! Helper lemmas about the list-as-set operations. -/

lemma mem_setAdd {s : List String} {x y : String} :
    y ∈ setAdd s x ↔ y = x ∨ y ∈ s := by
  by_cases hx : x ∈ s
  · rw [setAdd, if_pos hx]
    constructor
    · exact Or.inr
    · rintro (rfl | h)
      · exact hx
      · exact h
  · rw [setAdd, if_neg hx]
    simp [or_comm]

lemma mem_setUpdate {s l : List String} {y : String} :
    y ∈ setUpdate s l ↔ y ∈ s ∨ y ∈ l := by
  induction l generalizing s with
  | nil => simp [setUpdate]
  | cons a l ih =>
    have step : setUpdate s (a :: l) = setUpdate (setAdd s a) l := rfl
    rw [step, ih, mem_setAdd]
    simp
    tauto

lemma mem_catFold {cats : List Category} {ing t : String} {acc : List String} :
    t ∈ cats.foldl
        (fun acc c => if ing ∈ c.items then setUpdate acc c.tags else acc) acc
      ↔ t ∈ acc ∨ ∃ c ∈ cats, ing ∈ c.items ∧ t ∈ c.tags := by
  induction cats generalizing acc with
  | nil => simp
  | cons c cs ih =>
    rw [List.foldl_cons]
    by_cases hc : ing ∈ c.items
    · rw [if_pos hc, ih, mem_setUpdate]
      constructor
      · rintro ((h | h) | ⟨c', hc', hi, ht⟩)
        · exact .inl h
        · exact .inr ⟨c, List.mem_cons_self c cs, hc, h⟩
        · exact .inr ⟨c', List.mem_cons_of_mem c hc', hi, ht⟩
      · rintro (h | ⟨c', hc', hi, ht⟩)
        · exact .inl (.inl h)
        · rcases List.mem_cons.mp hc' with rfl | h'
          · exact .inl (.inr ht)
          · exact .inr ⟨c', h', hi, ht⟩
    · rw [if_neg hc, ih]
      constructor
      · rintro (h | ⟨c', hc', hi, ht⟩)
        · exact .inl h
        · exact .inr ⟨c', List.mem_cons_of_mem c hc', hi, ht⟩
      · rintro (h | ⟨c', hc', hi, ht⟩)
        · exact .inl h
        · rcases List.mem_cons.mp hc' with rfl | h'
          · exact absurd hi hc
          · exact .inr ⟨c', h', hi, ht⟩

lemma catFold_id {cats : List Category} {ing : String} {acc : List String}
    (h : ∀ c ∈ cats, ing ∉ c.items) :
    cats.foldl
        (fun acc c => if ing ∈ c.items then setUpdate acc c.tags else acc) acc
      = acc := by
  induction cats generalizing acc with
  | nil => rfl
  | cons c cs ih =>
    rw [List.foldl_cons, if_neg (h c (List.mem_cons_self c cs))]
    exact ih (fun c' hc' => h c' (List.mem_cons_of_mem c hc'))

lemma mem_dtagsFold {cats : List Category} {t : String} :
    ∀ (sel : List String) (acc : List String),
      t ∈ sel.foldl
          (fun acc ingredient => cats.foldl
            (fun acc c => if ingredient ∈ c.items then setUpdate acc c.tags else acc)
            acc) acc
        ↔ t ∈ acc ∨ ∃ i ∈ sel, ∃ c ∈ cats, i ∈ c.items ∧ t ∈ c.tags := by
  intro sel
  induction sel with
  | nil => simp
  | cons i is ih =>
    intro acc
    rw [List.foldl_cons, ih, mem_catFold]
    constructor
    · rintro ((h | ⟨c', hc', hi, ht⟩) | ⟨i', hi', rest⟩)
      · exact .inl h
      · exact .inr ⟨i, List.mem_cons_self i is, c', hc', hi, ht⟩
      · exact .inr ⟨i', List.mem_cons_of_mem i hi', rest⟩
    · rintro (h | ⟨i', hi', rest⟩)
      · exact .inl (.inl h)
      · rcases List.mem_cons.mp hi' with rfl | h'
        · exact .inl (.inr rest)
        · exact .inr ⟨i', h', rest⟩

lemma mem_get_dietary_tagsWith {cats : List Category} {sel : List String}
    {t : String} :
    t ∈ get_dietary_tagsWith cats sel
      ↔ ∃ i ∈ sel, ∃ c ∈ cats, i ∈ c.items ∧ t ∈ c.tags := by
  rw [get_dietary_tagsWith, mem_dtagsFold]
  simp

lemma mem_get_cooking_methods {sel : List String} {t : String} :
    t ∈ get_cooking_methods sel
      ↔ ∃ i ∈ sel, ∃ p, INGREDIENT_PROFILES.find? (fun q => q.name = i) = some p
          ∧ t ∈ p.cooking_methods := by
  rw [get_cooking_methods]
  have main : ∀ (sel : List String) (acc : List String),
      t ∈ sel.foldl
          (fun acc ingredient =>
            match INGREDIENT_PROFILES.find? (fun p => p.name = ingredient) with
            | some p => setUpdate acc p.cooking_methods
            | none => acc) acc
        ↔ t ∈ acc ∨ ∃ i ∈ sel, ∃ p,
            INGREDIENT_PROFILES.find? (fun q => q.name = i) = some p
              ∧ t ∈ p.cooking_methods := by
    intro sel
    induction sel with
    | nil => simp
    | cons i is ih =>
      intro acc
      rw [List.foldl_cons, ih]
      rcases hfind : INGREDIENT_PROFILES.find? (fun q => q.name = i) with _ | p
      · simp only [hfind]
        constructor
        · rintro (h | ⟨i', hi', rest⟩)
          · exact .inl h
          · exact .inr ⟨i', List.mem_cons_of_mem i hi', rest⟩
        · rintro (h | ⟨i', hi', p', hp', ht⟩)
          · exact .inl h
          · rcases List.mem_cons.mp hi' with rfl | h'
            · rw [hfind] at hp'
              exact absurd hp' (by simp)
            · exact .inr ⟨i', h', p', hp', ht⟩
      · simp only [hfind, mem_setUpdate]
        constructor
        · rintro ((h | h) | ⟨i', hi', rest⟩)
          · exact .inl h
          · exact .inr ⟨i, List.mem_cons_self i is, p, hfind, h⟩
          · exact .inr ⟨i', List.mem_cons_of_mem i hi', rest⟩
        · rintro (h | ⟨i', hi', p', hp', ht⟩)
          · exact .inl (.inl h)
          · rcases List.mem_cons.mp hi' with rfl | h'
            · rw [hfind] at hp'
              cases hp'
              exact .inl (.inr ht)
            · exact .inr ⟨i', h', p', hp', ht⟩
  rw [main]
  simp

/-- Claim C7: for every selection `S`, `resolveTags(S)` (the embedding
`get_dietary_tags`), viewed as a set, is a subset of the union of all
category tag sets in the catalog; the empty selection yields the empty set;
an ingredient with no catalog entry contributes nothing (appending it to any
selection leaves the result unchanged, no error); and, for the
catalog-parameterized body, an ingredient appearing in several categories
contributes exactly the union of all those categories' tags. -/
theorem get_dietary_tags_spec :
    (∀ (S : List String) (t : String),
      t ∈ get_dietary_tags S → ∃ c ∈ INGREDIENT_CATEGORIES, t ∈ c.tags)
  ∧ get_dietary_tags [] = []
  ∧ (∀ (S : List String) (i : String),
      (∀ c ∈ INGREDIENT_CATEGORIES, i ∉ c.items) →
        get_dietary_tags (S ++ [i]) = get_dietary_tags S)
  ∧ (∀ (cats : List Category) (i t : String),
      t ∈ get_dietary_tagsWith cats [i] ↔ ∃ c ∈ cats, i ∈ c.items ∧ t ∈ c.tags) := by
  refine ⟨?_, rfl, ?_, ?_⟩
  · intro S t ht
    rw [get_dietary_tags, mem_get_dietary_tagsWith] at ht
    rcases ht with ⟨i, _, c, hc, _, htc⟩
    exact ⟨c, hc, htc⟩
  · intro S i h
    simp only [get_dietary_tags, get_dietary_tagsWith]
    rw [List.foldl_append, List.foldl_cons, List.foldl_nil]
    exact catFold_id h
  · intro cats i t
    rw [mem_get_dietary_tagsWith]
    simp

/-- Witness for C7: applying the ingredient-with-no-catalog-entry clause at
the concrete selection `["Tomato"]` and the uncatalogued name `"Saffron"`. -/
theorem get_dietary_tags_spec_witness :
    (∀ c ∈ INGREDIENT_CATEGORIES, "Saffron" ∉ c.items)
  ∧ get_dietary_tags (["Tomato"] ++ ["Saffron"]) = get_dietary_tags ["Tomato"] :=
  ⟨by decide, get_dietary_tags_spec.2.2.1 ["Tomato"] "Saffron" (by decide)⟩

/-- Claim C8: for every selection `S`, `suggestMethods(S)` (the embedding
`get_cooking_methods`), viewed as a set, equals the union of the
cooking-method descriptor sets of exactly the ingredients of `S` that have a
profile; ingredients without a profile contribute nothing; the empty result
is an ordinary return value (e.g. a selection of profile-less ingredients
yields `[]`, not an error). -/
theorem get_cooking_methods_spec :
    (∀ (S : List String) (t : String),
      t ∈ get_cooking_methods S
        ↔ ∃ i ∈ S, ∃ p, INGREDIENT_PROFILES.find? (fun q => q.name = i) = some p
            ∧ t ∈ p.cooking_methods)
  ∧ get_cooking_methods [] = []
  ∧ get_cooking_methods ["Milk", "Eggs"] = [] :=
  ⟨fun _ _ => mem_get_cooking_methods, rfl, by decide⟩

/-- Claim C9: `resolveTags`, `suggestMethods` and `estimateNutrition` are
pure: threading the whole mutable state (session selection, in-memory
history, history file) through each call returns that state unchanged, and a
second call on the state left by the first yields the identical result. The
catalog tables are global constants, never reassigned. -/
theorem analysis_functions_pure :
    ∀ st : AppState,
      ((get_dietary_tagsRun st).2 = st
        ∧ (get_cooking_methodsRun st).2 = st
        ∧ (analyze_nutritionRun st).2 = st)
    ∧ ((get_dietary_tagsRun ((get_dietary_tagsRun st).2)).1
          = (get_dietary_tagsRun st).1
        ∧ (get_cooking_methodsRun ((get_cooking_methodsRun st).2)).1
            = (get_cooking_methodsRun st).1
        ∧ (analyze_nutritionRun ((analyze_nutritionRun st).2)).1
            = (analyze_nutritionRun st).1) :=
  fun _ => ⟨⟨rfl, rfl, rfl⟩, rfl, rfl, rfl⟩

/-- Claim C4: for every selection `S`, `estimateNutrition(S)` returns
calories equal to the sum over all elements of `S` (duplicates counted) of
10 times the character length of the name, protein equal to 15 times the
count of elements of `S` in the Proteins category, carbs equal to 20 times
the count of elements in the Pantry category; the empty selection yields all
zeros (the values are `Nat`, hence non-negative integers); and
`estimateNutrition(["Eggs"]).calories = 40`. -/
theorem analyze_nutrition_spec :
    (∀ S : List String,
      (analyze_nutrition S).calories = (S.map (fun i => 10 * i.length)).sum)
  ∧ (∀ S : List String,
      (analyze_nutrition S).protein
        = 15 * S.countP (fun i => decide (i ∈ categoryItems "Proteins")))
  ∧ (∀ S : List String,
      (analyze_nutrition S).carbs
        = 20 * S.countP (fun i => decide (i ∈ categoryItems "Pantry")))
  ∧ analyze_nutrition [] = ⟨0, 0, 0⟩
  ∧ (analyze_nutrition ["Eggs"]).calories = 40 := by
  refine ⟨?_, ?_, ?_, rfl, by decide⟩
  · intro S
    simp [analyze_nutrition, Nat.mul_comm]
  · intro S
    simp [analyze_nutrition, List.countP_eq_length_filter, Nat.mul_comm]
  · intro S
    simp [analyze_nutrition, List.countP_eq_length_filter, Nat.mul_comm]

/-- Claim C10: none of the three nutrition figures deduplicates the
selection: inserting `n` copies of an ingredient `i` anywhere into a
selection adds `15 * n` to protein when `i` is in the Proteins category
(0 otherwise), `20 * n` to carbs when `i` is in the Pantry category
(0 otherwise), and `n * (10 * length i)` to calories. -/
theorem analyze_nutrition_counts_duplicates :
    ∀ (S T : List String) (i : String) (n : Nat),
      ((analyze_nutrition (S ++ List.replicate n i ++ T)).protein
        = (analyze_nutrition (S ++ T)).protein
          + (if i ∈ categoryItems "Proteins" then 15 * n else 0))
    ∧ ((analyze_nutrition (S ++ List.replicate n i ++ T)).carbs
        = (analyze_nutrition (S ++ T)).carbs
          + (if i ∈ categoryItems "Pantry" then 20 * n else 0))
    ∧ ((analyze_nutrition (S ++ List.replicate n i ++ T)).calories
        = (analyze_nutrition (S ++ T)).calories + n * (10 * i.length)) := by
  intro S T i n
  refine ⟨?_, ?_, ?_⟩
  · by_cases hi : i ∈ categoryItems "Proteins"
    · simp [analyze_nutrition, List.filter_append, List.filter_replicate, hi]
      omega
    · simp [analyze_nutrition, List.filter_append, List.filter_replicate, hi]
  · by_cases hi : i ∈ categoryItems "Pantry"
    · simp [analyze_nutrition, List.filter_append, List.filter_replicate, hi]
      omega
    · simp [analyze_nutrition, List.filter_append, List.filter_replicate, hi]
  · simp [analyze_nutrition, List.map_replicate, List.sum_replicate]
    ring

/-! Serialization round-trip lemmas for the history store. -/

lemma jsonStrItems?_map (l : List String) :
    jsonStrItems? (l.map Json.str) = some l := by
  induction l with
  | nil => rfl
  | cons s rest ih =>
    simp [jsonStrItems?, jsonStr?, ih]

lemma jsonToEntry_entryToJson (e : RecipeEntry) :
    jsonToEntry (entryToJson e) = some e := by
  simp [entryToJson, jsonToEntry, jsonField, List.find?, jsonStr?, jsonNum?,
    jsonStrList?, jsonStrItems?_map]

lemma jsonToEntries_map (h : List RecipeEntry) :
    jsonToEntries (h.map entryToJson) = some h := by
  induction h with
  | nil => rfl
  | cons e rest ih =>
    simp [jsonToEntries, jsonToEntry_entryToJson, ih]

lemma jsonToHistory_historyToJson (h : List RecipeEntry) :
    jsonToHistory (historyToJson h) = some h := by
  simp [historyToJson, jsonToHistory, jsonToEntries_map]

lemma load_history_save (s : Sys) :
    load_history (save_history s).file = .ok s.history := by
  simp [save_history, load_history, jsonToHistory_historyToJson]

/-- Claim C5: `load()` returns the empty sequence, not an error, when no
persisted store exists; a malformed store is a load error surfaced to the
caller; and a successful load never rewrites the stored history (the
manager state produced by loading carries the file unchanged). -/
theorem load_history_spec :
    load_history none = .ok []
  ∧ load_history (some (.error ())) = .error ()
  ∧ (∀ (fc : FileContent) (s : Sys), initManager fc = .ok s → s.file = fc) := by
  refine ⟨rfl, rfl, ?_⟩
  intro fc s h
  rcases hl : load_history fc with e | hist
  · rw [initManager, hl] at h
    cases h
  · rw [initManager, hl] at h
    cases h
    rfl

/-- Witness for C5: loading a nonexistent store succeeds with the empty
history and leaves the (absent) file as it was. -/
theorem load_history_spec_witness :
    initManager none = .ok { file := none, history := [] }
  ∧ Sys.file { file := none, history := [] } = none :=
  ⟨rfl, load_history_spec.2.2 none { file := none, history := [] } rfl⟩

/-- Claim C6: for every manager state and every appended entry, `add_recipe`
followed by a fresh `load_history` of the file it wrote returns exactly the
previous in-memory history with the new entry at the tail: the last element
of the loaded sequence is the appended entry (serialize-then-deserialize
round-trip) and the earlier elements are the previous history unchanged. -/
theorem add_recipe_load_roundtrip :
    ∀ (s : Sys) (recipeData timestamp : String) (selection : List String),
      load_history (add_recipe recipeData timestamp selection s).file
        = .ok (s.history ++ [newEntry recipeData timestamp selection])
    ∧ (s.history ++ [newEntry recipeData timestamp selection]).getLast?
        = some (newEntry recipeData timestamp selection)
    ∧ (s.history ++ [newEntry recipeData timestamp selection]).dropLast
        = s.history := by
  intro s rd ts sel
  refine ⟨?_, List.getLast?_concat _, List.dropLast_concat ..⟩
  rw [add_recipe]
  exact load_history_save _

/-- Claim C3: the like increment (`history[-1]['likes'] += 1` then
`save_history`) fails with a precondition error on an empty history — the
subscript raises before any write, so the error branch carries no store
mutation — and on a non-empty history increments exactly the last entry's
counter by 1, leaves the other entries unchanged and persists the full
history; two consecutive calls increase the last counter by exactly 2. -/
theorem incrementLastLike_spec :
    (∀ s : Sys, s.history = [] → incrementLastLike s = .error ())
  ∧ (∀ (s : Sys) (h : List RecipeEntry) (e : RecipeEntry),
      s.history = h ++ [e] →
        incrementLastLike s
          = .ok { file := some (.ok (historyToJson (h ++ [{ e with likes := e.likes + 1 }])))
                , history := h ++ [{ e with likes := e.likes + 1 }] })
  ∧ (∀ (s s1 s2 : Sys) (h : List RecipeEntry) (e : RecipeEntry),
      s.history = h ++ [e] →
        incrementLastLike s = .ok s1 →
        incrementLastLike s1 = .ok s2 →
        s2.history = h ++ [{ e with likes := e.likes + 2 }]) := by
  have step : ∀ (s : Sys) (h : List RecipeEntry) (e : RecipeEntry),
      s.history = h ++ [e] →
        incrementLastLike s
          = .ok { file := some (.ok (historyToJson (h ++ [{ e with likes := e.likes + 1 }])))
                , history := h ++ [{ e with likes := e.likes + 1 }] } := by
    intro s h e hs
    rw [incrementLastLike, hs, List.getLast?_concat, List.dropLast_concat]
    rfl
  refine ⟨?_, step, ?_⟩
  · intro s hs
    rw [incrementLastLike, hs]
    rfl
  · intro s s1 s2 h e hs h1 h2
    rw [step s h e hs] at h1
    cases h1
    rw [step _ h { e with likes := e.likes + 1 } rfl] at h2
    cases h2
    rfl

/-- Witness for C3: a manager holding one entry with 0 likes, liked twice,
ends with that entry at 2 likes. -/
theorem incrementLastLike_spec_witness :
    (Sys.mk none [entryOf ["Tomato"]]).history = [] ++ [entryOf ["Tomato"]]
  ∧ Sys.history
      { file := some (.ok (historyToJson ([] ++ [{ entryOf ["Tomato"] with likes := 2 }])))
      , history := [] ++ [{ entryOf ["Tomato"] with likes := 2 }] }
      = [] ++ [{ entryOf ["Tomato"] with likes := 2 }] := by
  constructor
  · rfl
  · exact incrementLastLike_spec.2.2
      (Sys.mk none [entryOf ["Tomato"]]) _ _ [] (entryOf ["Tomato"]) rfl rfl rfl

/-! Counting lemmas for the pair-frequency analyzer. -/

lemma comboCount_bump (l : List ((String × String) × Nat)) (k k' : String × String) :
    comboCount (bump l k) k' = comboCount l k' + (if k' = k then 1 else 0) := by
  induction l with
  | nil =>
    simp only [bump, comboCount]
    by_cases h : k = k'
    · simp [h]
    · simp [h, Ne.symm h]
  | cons p rest ih =>
    obtain ⟨k0, c0⟩ := p
    by_cases h0 : k0 = k
    · rw [bump, if_pos h0]
      simp only [comboCount]
      by_cases h1 : k0 = k'
      · have hk : k' = k := by rw [← h1, h0]
        rw [if_pos h1, if_pos h1, if_pos hk]
      · have hk : k' ≠ k := fun hh => h1 (by rw [h0, ← hh])
        rw [if_neg h1, if_neg h1, if_neg hk]
        simp
    · rw [bump, if_neg h0]
      simp only [comboCount]
      by_cases h1 : k0 = k'
      · have hk : k' ≠ k := fun hh => h0 (by rw [h1, hh])
        rw [if_pos h1, if_pos h1, if_neg hk]
        simp
      · rw [if_neg h1, if_neg h1, ih]

lemma comboCount_foldl_bump (ks : List (String × String))
    (acc : List ((String × String) × Nat)) (k : String × String) :
    comboCount (ks.foldl bump acc) k = comboCount acc k + keyOcc ks k := by
  induction ks generalizing acc with
  | nil => simp [keyOcc]
  | cons k0 ks ih =>
    rw [List.foldl_cons, ih, comboCount_bump]
    simp only [keyOcc, List.countP_cons]
    by_cases h : k = k0
    · simp [h]
      omega
    · simp [h, Ne.symm h]

lemma comboCount_pairCombos (history : List RecipeEntry) (k : String × String) :
    comboCount (pairCombos history) k
      = (history.map (fun e => keyOcc (entryPairs e.ingredients) k)).sum := by
  rw [pairCombos]
  have main : ∀ (hist : List RecipeEntry) (acc : List ((String × String) × Nat)),
      comboCount
          (hist.foldl (fun acc e => (entryPairs e.ingredients).foldl bump acc) acc) k
        = comboCount acc k
          + (hist.map (fun e => keyOcc (entryPairs e.ingredients) k)).sum := by
    intro hist
    induction hist with
    | nil => simp
    | cons e es ih =>
      intro acc
      rw [List.foldl_cons, ih, comboCount_foldl_bump]
      simp
      omega
  rw [main]
  simp [comboCount]

lemma countP_filterMap_pair {a b : String} (hab : pyStrLt a b = true)
    (i1 : String) (ings : List String) :
    (ings.filterMap
        (fun i2 => if pyStrLt i1 i2 then some (i1, i2) else none)).countP
        (fun x => decide (x = (a, b)))
      = if i1 = a then ings.count b else 0 := by
  induction ings with
  | nil => simp
  | cons i2 rest ih =>
    by_cases hc : pyStrLt i1 i2 = true
    · simp only [List.filterMap_cons, hc, reduceIte]
      rw [List.countP_cons, ih, List.count_cons]
      by_cases h1 : i1 = a
      · subst h1
        by_cases h2 : i2 = b
        · subst h2
          simp
        · simp [h2, Ne.symm h2, Prod.ext_iff]
      · simp [h1, Prod.ext_iff]
    · simp only [Bool.not_eq_true] at hc
      simp only [List.filterMap_cons, hc, Bool.false_eq_true, reduceIte]
      rw [ih, List.count_cons]
      by_cases h1 : i1 = a
      · subst h1
        by_cases h2 : i2 = b
        · subst h2
          rw [hab] at hc
          cases hc
        · simp [h2, Ne.symm h2]
      · simp [h1]

lemma sum_map_ite_count (ings : List String) (a : String) (c : Nat) :
    ((ings.map (fun i1 => if i1 = a then c else 0)).sum) = ings.count a * c := by
  induction ings with
  | nil => simp
  | cons i rest ih =>
    rw [List.map_cons, List.sum_cons, ih, List.count_cons]
    by_cases h : i = a
    · subst h
      simp [Nat.add_mul]
      omega
    · simp [h, Ne.symm h]

lemma keyOcc_entryPairs {a b : String} (hab : pyStrLt a b = true)
    (ings : List String) :
    keyOcc (entryPairs ings) (a, b) = ings.count a * ings.count b := by
  rw [keyOcc, entryPairs, List.countP_flatMap]
  have congrMap : (ings.map
      ((fun l => List.countP (fun x => decide (x = (a, b))) l)
        ∘ fun i1 => ings.filterMap
            (fun i2 => if pyStrLt i1 i2 then some (i1, i2) else none)))
      = ings.map (fun i1 => if i1 = a then ings.count b else 0) := by
    apply List.map_congr_left
    intro i1 _
    exact countP_filterMap_pair hab i1 ings
  rw [congrMap, sum_map_ite_count]

lemma sum_prod_counts_nodup (a b : String) :
    ∀ history : List RecipeEntry, (∀ e ∈ history, e.ingredients.Nodup) →
      (history.map (fun e => e.ingredients.count a * e.ingredients.count b)).sum
        = history.countP (fun e => decide (a ∈ e.ingredients ∧ b ∈ e.ingredients)) := by
  intro history
  induction history with
  | nil => intro _; rfl
  | cons e es ih =>
    intro hnd
    have hnde := hnd e (List.mem_cons_self e es)
    have hih := ih (fun e' he' => hnd e' (List.mem_cons_of_mem e he'))
    rw [List.map_cons, List.sum_cons, List.countP_cons, hih]
    have hprod : e.ingredients.count a * e.ingredients.count b
        = if a ∈ e.ingredients ∧ b ∈ e.ingredients then 1 else 0 := by
      by_cases ha : a ∈ e.ingredients
      · by_cases hb : b ∈ e.ingredients
        · rw [List.count_eq_one_of_mem hnde ha, List.count_eq_one_of_mem hnde hb,
            if_pos ⟨ha, hb⟩]
        · rw [List.count_eq_zero_of_not_mem hb, if_neg (fun hh => hb hh.2)]
          simp
      · rw [List.count_eq_zero_of_not_mem ha, if_neg (fun hh => ha hh.1)]
        simp
    rw [hprod]
    by_cases hin : a ∈ e.ingredients ∧ b ∈ e.ingredients
    · simp [hin]
      omega
    · simp [hin]

/-- Counterexample to claim C1 as stated: for a history of one entry whose
selection `["A", "B", "A"]` repeats the ingredient `"A"`, the unordered pair
`("A", "B")` drawn from that entry's deduplicated selection is counted 2
times by the analytics loop, not exactly once — the source does not dedupe
the selection before pairing. -/
theorem pairCombos_dedup_counterexample :
    comboCount (pairCombos [entryOf ["A", "B", "A"]]) ("A", "B") = 2
  ∧ comboCount (pairCombos [entryOf ["A", "B", "A"]]) ("A", "B") ≠ 1 := by
  constructor
  · decide
  · decide

/-- Claim C1 amended: in the pair-frequency analysis, an entry contributes
to the counter of the pair `(a, b)` (with `a` below `b` in Python string
order) once per ordered pair of occurrences: exactly
`(occurrences of a in the entry's selection) × (occurrences of b)`; in
particular, for entries whose selections contain no duplicate names, each
unordered pair of distinct co-selected ingredients is counted exactly once
per entry containing both. -/
theorem pairCombos_count_product :
    (∀ (history : List RecipeEntry) (a b : String), pyStrLt a b = true →
      comboCount (pairCombos history) (a, b)
        = (history.map
            (fun e => e.ingredients.count a * e.ingredients.count b)).sum)
  ∧ (∀ (history : List RecipeEntry) (a b : String), pyStrLt a b = true →
      (∀ e ∈ history, e.ingredients.Nodup) →
      comboCount (pairCombos history) (a, b)
        = history.countP
            (fun e => decide (a ∈ e.ingredients ∧ b ∈ e.ingredients))) := by
  have first : ∀ (history : List RecipeEntry) (a b : String),
      pyStrLt a b = true →
      comboCount (pairCombos history) (a, b)
        = (history.map
            (fun e => e.ingredients.count a * e.ingredients.count b)).sum := by
    intro history a b hab
    rw [comboCount_pairCombos]
    congr 1
    apply List.map_congr_left
    intro e _
    exact keyOcc_entryPairs hab e.ingredients
  refine ⟨first, ?_⟩
  intro history a b hab hnd
  rw [first history a b hab]
  exact sum_prod_counts_nodup a b history hnd

/-- Witness for the amended C1: a two-entry history with duplicate-free
selections, where the pair ("A", "B") is counted once per entry containing
both. -/
theorem pairCombos_count_product_witness :
    pyStrLt "A" "B" = true
  ∧ (∀ e ∈ [entryOf ["A", "B"], entryOf ["B", "C"]], e.ingredients.Nodup)
  ∧ comboCount (pairCombos [entryOf ["A", "B"], entryOf ["B", "C"]]) ("A", "B")
      = List.countP
          (fun e => decide ("A" ∈ e.ingredients ∧ "B" ∈ e.ingredients))
          [entryOf ["A", "B"], entryOf ["B", "C"]] :=
  ⟨by decide, by decide,
    pairCombos_count_product.2 [entryOf ["A", "B"], entryOf ["B", "C"]]
      "A" "B" (by decide) (by decide)⟩

/-! Lemmas about the stable descending sort of counted pairs. -/

lemma length_insertDesc (x : (String × String) × Nat)
    (l : List ((String × String) × Nat)) :
    (insertDesc x l).length = l.length + 1 := by
  induction l with
  | nil => rfl
  | cons y ys ih =>
    rw [insertDesc]
    by_cases hc : y.2 ≤ x.2
    · rw [if_pos hc]
      rfl
    · rw [if_neg hc, List.length_cons, ih]
      rfl

lemma length_sortByCountDesc (l : List ((String × String) × Nat)) :
    (sortByCountDesc l).length = l.length := by
  induction l with
  | nil => rfl
  | cons x xs ih =>
    rw [sortByCountDesc, length_insertDesc, ih]
    rfl

lemma mem_insertDesc {z x : (String × String) × Nat}
    {l : List ((String × String) × Nat)} (h : z ∈ insertDesc x l) :
    z = x ∨ z ∈ l := by
  induction l with
  | nil =>
    rw [insertDesc] at h
    simp at h
    exact .inl h
  | cons y ys ih =>
    rw [insertDesc] at h
    by_cases hc : y.2 ≤ x.2
    · rw [if_pos hc] at h
      rcases List.mem_cons.mp h with rfl | h'
      · exact .inl rfl
      · exact .inr h'
    · rw [if_neg hc] at h
      rcases List.mem_cons.mp h with rfl | h'
      · exact .inr (List.mem_cons_self z ys)
      · rcases ih h' with rfl | hz
        · exact .inl rfl
        · exact .inr (List.mem_cons_of_mem y hz)

lemma sorted_insertDesc {x : (String × String) × Nat}
    {l : List ((String × String) × Nat)}
    (h : l.Pairwise (fun p q => q.2 ≤ p.2)) :
    (insertDesc x l).Pairwise (fun p q => q.2 ≤ p.2) := by
  induction l with
  | nil => simp [insertDesc]
  | cons y ys ih =>
    rw [List.pairwise_cons] at h
    rw [insertDesc]
    by_cases hc : y.2 ≤ x.2
    · rw [if_pos hc, List.pairwise_cons]
      refine ⟨?_, List.pairwise_cons.mpr h⟩
      intro z hz
      rcases List.mem_cons.mp hz with rfl | hz'
      · exact hc
      · exact Nat.le_trans (h.1 z hz') hc
    · rw [if_neg hc, List.pairwise_cons]
      refine ⟨?_, ih h.2⟩
      intro z hz
      rcases mem_insertDesc hz with rfl | hz'
      · exact Nat.le_of_lt (Nat.lt_of_not_le hc)
      · exact h.1 z hz'

lemma sorted_sortByCountDesc (l : List ((String × String) × Nat)) :
    (sortByCountDesc l).Pairwise (fun p q => q.2 ≤ p.2) := by
  induction l with
  | nil => simp [sortByCountDesc]
  | cons x xs ih =>
    rw [sortByCountDesc]
    exact sorted_insertDesc ih

lemma filter_insertDesc (x : (String × String) × Nat)
    (l : List ((String × String) × Nat)) (c : Nat) :
    (insertDesc x l).filter (fun p => decide (p.2 = c))
      = (x :: l).filter (fun p => decide (p.2 = c)) := by
  induction l with
  | nil => rfl
  | cons y ys ih =>
    rw [insertDesc]
    by_cases hc : y.2 ≤ x.2
    · rw [if_pos hc]
    · rw [if_neg hc]
      by_cases hyc : y.2 = c
      · have hxc : x.2 ≠ c := fun hx => hc (by rw [hyc, hx])
        simp only [List.filter_cons, ih]
        simp [hyc, hxc]
      · by_cases hxc : x.2 = c
        · simp only [List.filter_cons, ih]
          simp [hyc, hxc]
        · simp only [List.filter_cons, ih]
          simp [hyc, hxc]

lemma filter_sortByCountDesc (l : List ((String × String) × Nat)) (c : Nat) :
    (sortByCountDesc l).filter (fun p => decide (p.2 = c))
      = l.filter (fun p => decide (p.2 = c)) := by
  induction l with
  | nil => rfl
  | cons x xs ih =>
    rw [sortByCountDesc, filter_insertDesc, List.filter_cons, List.filter_cons, ih]

/-- Claim C2: `topPairs` returns pairs ordered by count descending
(a `Pairwise` non-increasing count along the output); ties keep
first-encountered order — elements of any fixed count appear in the sorted
counter exactly in the order the `combinations` dict first recorded them
(entries in history order, pair keys in loop order within an entry); the
spec's concrete example holds; the empty history yields the empty sequence;
and when fewer pairs exist than the cutoff `k`, all of them are returned. -/
theorem topPairs_spec :
    (∀ k : Nat, topPairs [] k = [])
  ∧ topPairs [entryOf ["A", "B"], entryOf ["A", "B"], entryOf ["A", "C"]] 2
      = [("A", "B", 2), ("A", "C", 1)]
  ∧ (∀ (history : List RecipeEntry) (k : Nat),
      (topPairs history k).Pairwise (fun x y => y.2.2 ≤ x.2.2))
  ∧ (∀ (history : List RecipeEntry) (c : Nat),
      (sortByCountDesc (pairCombos history)).filter (fun p => decide (p.2 = c))
        = (pairCombos history).filter (fun p => decide (p.2 = c)))
  ∧ (∀ (history : List RecipeEntry) (k : Nat),
      (pairCombos history).length ≤ k →
        topPairs history k
          = (sortByCountDesc (pairCombos history)).map
              (fun p => (p.1.1, p.1.2, p.2))
        ∧ (topPairs history k).length = (pairCombos history).length) := by
  refine ⟨fun k => by simp [topPairs, pairCombos, sortByCountDesc], by decide, ?_, ?_, ?_⟩
  · intro history k
    have hs := sorted_sortByCountDesc (pairCombos history)
    have ht : ((sortByCountDesc (pairCombos history)).take k).Pairwise
        (fun p q : (String × String) × Nat => q.2 ≤ p.2) :=
      hs.sublist (List.take_sublist k _)
    exact ht.map _ (fun a b h => h)
  · intro history c
    exact filter_sortByCountDesc _ _
  · intro history k hk
    have hlen := length_sortByCountDesc (pairCombos history)
    have htake : (sortByCountDesc (pairCombos history)).take k
        = sortByCountDesc (pairCombos history) :=
      List.take_of_length_le (by rw [hlen]; exact hk)
    constructor
    · rw [topPairs, htake]
    · rw [topPairs, htake, List.length_map, hlen]

/-- Witness for C2: a one-entry history has a single counted pair, so any
cutoff of at least 1 returns all of it. -/
theorem topPairs_spec_witness :
    (pairCombos [entryOf ["A", "B"]]).length ≤ 5
  ∧ (topPairs [entryOf ["A", "B"]] 5).length
      = (pairCombos [entryOf ["A", "B"]]).length :=
  ⟨by decide, (topPairs_spec.2.2.2.2 [entryOf ["A", "B"]] 5 (by decide)).2⟩
